import Mathlib

/-!
Verification of the countdown calculator of `gif-countdown`
(`src/lib/DateTimeCounter.js`, delivered here as `src/unnamed/part_000`).

The counter state is a mutable record `{days, hours, minutes, seconds}` of
JavaScript numbers; all values reached by the code under scrutiny are exact
integers, so fields are embedded as `Int`.  The mutating methods
(`reset`, `dayDown`, `hourDown`, `minuteDown`, `secondDown`) become pure
state-passing functions.  The `while` loops of `hourDown`, `minuteDown` and
`secondDown` are embedded with an explicit fuel bound and return
`Option CValue`, `none` meaning the fuel ran out; the fuel supplied by the
wrappers (`hourFuel`, `minuteFuel`, `secondFuel`) is one more than the number
of whole higher-order units available for borrowing, and the development
proves that on every state with non-negative fields the loops finish within
that bound (the `none` branch is unreachable there), which is exactly the
termination argument for the source loops.

Date parsing is outside the embedding: the constructor is modelled on the
already-parsed millisecond values (`Date.valueOf()`), exact integers for
parseable inputs.  For the failure-semantics claim the constructor is also
embedded over NaN-able numbers (`Option Int`, `none` = NaN), since in
JavaScript `new Date(bad).valueOf()` is `NaN` and the constructor contains
no check or `throw`.
-/

namespace DateTimeCounter

/-- The counter value `this.value = {days, hours, minutes, seconds}`. -/
structure CValue where
  days : Int
  hours : Int
  minutes : Int
  seconds : Int
deriving DecidableEq

/-- `reset()`: sets all four fields to 0. -/
def reset : CValue := ⟨0, 0, 0, 0⟩

/-- `dayDown(num)`: `newDays = days - num`; store `newDays > 0 ? newDays : 0`;
if `newDays < 0` the whole counter is reset to all-zero. -/
def dayDown (num : Int) (v : CValue) : CValue :=
  let newDays := v.days - num
  if newDays < 0 then reset
  else { v with days := if 0 < newDays then newDays else 0 }

/-- The `while (this.value.days > 0 && newHours < 0)` loop of `hourDown(num)`,
with fuel.  Each iteration runs `dayDown(1)`, adds 24 to `hours` and retries;
on exit `hours` is clamped to `newHours > 0 ? newHours : 0`. -/
def hourDownGo : Nat → Int → CValue → Option CValue
  | 0, _, _ => none
  | fuel + 1, num, v =>
    let newHours := v.hours - num
    if 0 < v.days ∧ newHours < 0 then
      let v1 := dayDown 1 v
      hourDownGo fuel num { v1 with hours := v1.hours + 24 }
    else
      some { v with hours := if 0 < newHours then newHours else 0 }

/-- Fuel for `hourDown`: each borrow iteration consumes one day, so
`days + 1` steps always suffice (proved below for non-negative states). -/
def hourFuel (v : CValue) : Nat := v.days.toNat + 1

/-- `hourDown(num)` of the source. -/
def hourDown (num : Int) (v : CValue) : Option CValue :=
  hourDownGo (hourFuel v) num v

/-- The `while ((this.value.days > 0 || this.value.hours > 0) && newMinutes < 0)`
loop of `minuteDown(num)`, with fuel.  Each iteration runs `hourDown(1)`,
adds 60 to `minutes` and retries; on exit `minutes` is clamped. -/
def minuteDownGo : Nat → Int → CValue → Option CValue
  | 0, _, _ => none
  | fuel + 1, num, v =>
    let newMinutes := v.minutes - num
    if (0 < v.days ∨ 0 < v.hours) ∧ newMinutes < 0 then
      match hourDown 1 v with
      | none => none
      | some v1 => minuteDownGo fuel num { v1 with minutes := v1.minutes + 60 }
    else
      some { v with minutes := if 0 < newMinutes then newMinutes else 0 }

/-- Fuel for `minuteDown`: each borrow iteration consumes one whole hour
from the days/hours pool, so `24*days + hours + 1` steps suffice. -/
def minuteFuel (v : CValue) : Nat := (24 * v.days + v.hours).toNat + 1

/-- `minuteDown(num)` of the source. -/
def minuteDown (num : Int) (v : CValue) : Option CValue :=
  minuteDownGo (minuteFuel v) num v

/-- The `while ((days > 0 || hours > 0 || minutes > 0) && newSeconds < 0)`
loop of `secondDown(num)`, with fuel.  Each iteration runs `minuteDown(1)`,
adds 60 to `seconds` and retries; on exit `seconds` is clamped. -/
def secondDownGo : Nat → Int → CValue → Option CValue
  | 0, _, _ => none
  | fuel + 1, num, v =>
    let newSeconds := v.seconds - num
    if (0 < v.days ∨ 0 < v.hours ∨ 0 < v.minutes) ∧ newSeconds < 0 then
      match minuteDown 1 v with
      | none => none
      | some v1 => secondDownGo fuel num { v1 with seconds := v1.seconds + 60 }
    else
      some { v with seconds := if 0 < newSeconds then newSeconds else 0 }

/-- Fuel for `secondDown`: each borrow iteration consumes one whole minute
from the days/hours/minutes pool, so `1440*days + 60*hours + minutes + 1`
steps suffice. -/
def secondFuel (v : CValue) : Nat := (1440 * v.days + 60 * v.hours + v.minutes).toNat + 1

/-- `secondDown(num)` of the source. -/
def secondDown (num : Int) (v : CValue) : Option CValue :=
  secondDownGo (secondFuel v) num v

/-- `n` successive `secondDown(1)` calls (the per-frame decrement of the
render loop in `src/index.js`). -/
def iterSecond : Nat → CValue → Option CValue
  | 0, v => some v
  | n + 1, v => (secondDown 1 v).bind (iterSecond n)

/-- Total remaining seconds represented by a counter value. -/
def total (v : CValue) : Int :=
  86400 * v.days + 3600 * v.hours + 60 * v.minutes + v.seconds

/-- A duration in normal form: all fields non-negative, `hours ≤ 23`,
`minutes ≤ 59`, `seconds ≤ 59` (`days` unbounded above). -/
def Valid (v : CValue) : Prop :=
  0 ≤ v.days ∧ 0 ≤ v.hours ∧ v.hours ≤ 23 ∧
    0 ≤ v.minutes ∧ v.minutes ≤ 59 ∧ 0 ≤ v.seconds ∧ v.seconds ≤ 59

instance instDecidableValid (v : CValue) : Decidable (Valid v) := by
  unfold Valid; infer_instance

/-- Canonical decomposition of a second count into the four fields,
clamped to all-zero for non-positive totals.  (`/` and `%` on `Int` round
toward minus infinity for these positive divisors, i.e. they are the
`Math.floor` based decomposition.) -/
def decompose (n : Int) : CValue :=
  if n ≤ 0 then reset
  else ⟨n / 86400, n % 86400 / 3600, n % 86400 % 3600 / 60, n % 86400 % 3600 % 60⟩

/-- Modelled from the spec: `DateTimeCounter.isExpired` is not present in the
delivered sources (only its caller `#createFrame` in `src/index.js` is); the
spec defines it as true exactly when all four fields are simultaneously
zero. -/
def isExpired (v : CValue) : Bool :=
  v.days == 0 && v.hours == 0 && v.minutes == 0 && v.seconds == 0

/-- `Math.round((toDateValue - fromDateValue) / 1000)` on exact integer
millisecond values: JavaScript rounds half toward plus infinity, so this is
`⌊(diff + 500) / 1000⌋`. -/
def roundedDiffSeconds (toDateValue fromDateValue : Int) : Int :=
  (toDateValue - fromDateValue + 500) / 1000

/-- The constructor of `DateTimeCounter`, on the already-parsed millisecond
values of the two instants: round the difference to whole seconds, then
peel off days, hours and minutes by floor division and subtraction. -/
def computeCounter (toDateValue fromDateValue : Int) : CValue :=
  let remainingSeconds0 := roundedDiffSeconds toDateValue fromDateValue
  let days := remainingSeconds0 / 86400
  let remainingSeconds1 := remainingSeconds0 - days * 86400
  let hours := remainingSeconds1 / 3600
  let remainingSeconds2 := remainingSeconds1 - hours * 3600
  let minutes := remainingSeconds2 / 60
  let seconds := remainingSeconds2 - minutes * 60
  ⟨days, hours, minutes, seconds⟩

/-- The construction rule as the spec words it:
`totalSeconds = round((target - reference)/1000)` (nearest whole second),
`days = floor(totalSeconds/86400)`, then the remainder is split by floor
division into hours, minutes and the final seconds remainder. -/
def specConstruct (target reference : Int) : CValue :=
  let totalSeconds := roundedDiffSeconds target reference
  ⟨totalSeconds / 86400, totalSeconds % 86400 / 3600,
    totalSeconds % 86400 % 3600 / 60, totalSeconds % 86400 % 3600 % 60⟩

/-- A JavaScript number that may be NaN (`none`); all values reached here
are otherwise exact integers. -/
abbrev JsNum := Option Int

/-- Subtraction with NaN propagation. -/
def jsSub (a b : JsNum) : JsNum :=
  match a, b with
  | some x, some y => some (x - y)
  | _, _ => none

/-- Multiplication by an integer constant with NaN propagation. -/
def jsMulC (a : JsNum) (c : Int) : JsNum := a.map (fun x => x * c)

/-- `Math.round(a / 1000)` with NaN propagation (`Math.round(NaN) = NaN`). -/
def jsRoundDiv1000 (a : JsNum) : JsNum := a.map (fun x => (x + 500) / 1000)

/-- `Math.floor(a / c)` for a positive constant `c`, with NaN propagation. -/
def jsFloorDiv (a : JsNum) (c : Int) : JsNum := a.map (fun x => x / c)

/-- A counter value whose fields may be NaN. -/
structure JsCValue where
  days : JsNum
  hours : JsNum
  minutes : JsNum
  seconds : JsNum
deriving DecidableEq

/-- The constructor over NaN-able inputs: `new Date(s).valueOf()` of an
unparseable string is `NaN` (`none` here), and the constructor body applies
its arithmetic unconditionally — there is no parse check and no `throw`
anywhere in it, so NaN simply propagates into the four fields. -/
def computeCounterJs (toDateValue fromDateValue : JsNum) : JsCValue :=
  let remainingSeconds0 := jsRoundDiv1000 (jsSub toDateValue fromDateValue)
  let days := jsFloorDiv remainingSeconds0 86400
  let remainingSeconds1 := jsSub remainingSeconds0 (jsMulC days 86400)
  let hours := jsFloorDiv remainingSeconds1 3600
  let remainingSeconds2 := jsSub remainingSeconds1 (jsMulC hours 3600)
  let minutes := jsFloorDiv remainingSeconds2 60
  let seconds := jsSub remainingSeconds2 (jsMulC minutes 60)
  ⟨days, hours, minutes, seconds⟩

theorem dayDown_one (d h m s : Int) (hd : 0 < d) :
    dayDown 1 ⟨d, h, m, s⟩ = ⟨d - 1, h, m, s⟩ := by
  simp only [dayDown]
  rw [if_neg (by omega)]
  split <;> simp_all <;> omega

theorem hourDown_one_pos (d h m s : Int) (hh : 0 < h) :
    hourDown 1 ⟨d, h, m, s⟩ = some ⟨d, h - 1, m, s⟩ := by
  simp only [hourDown, hourFuel, hourDownGo]
  rw [if_neg (by omega)]
  split <;> simp_all <;> omega

theorem hourDown_one_borrow (d m s : Int) (hd : 0 < d) :
    hourDown 1 ⟨d, 0, m, s⟩ = some ⟨d - 1, 23, m, s⟩ := by
  obtain ⟨k, hk⟩ : ∃ k, Int.toNat d = k + 1 := ⟨d.toNat - 1, by omega⟩
  simp only [hourDown, hourFuel, hk, hourDownGo]
  rw [if_pos (by constructor <;> omega), dayDown_one d 0 m s hd]
  norm_num

theorem minuteDown_one_pos (d h m s : Int) (hm : 0 < m) :
    minuteDown 1 ⟨d, h, m, s⟩ = some ⟨d, h, m - 1, s⟩ := by
  simp only [minuteDown, minuteFuel, minuteDownGo]
  rw [if_neg (by omega)]
  split <;> simp_all <;> omega

theorem minuteDown_one_hborrow (d h s : Int) (hd : 0 ≤ d) (hh : 0 < h) :
    minuteDown 1 ⟨d, h, 0, s⟩ = some ⟨d, h - 1, 59, s⟩ := by
  obtain ⟨k, hk⟩ : ∃ k, (24 * d + h).toNat = k + 1 := ⟨(24 * d + h).toNat - 1, by omega⟩
  simp only [minuteDown, minuteFuel, hk, minuteDownGo]
  rw [if_pos ⟨Or.inr hh, by omega⟩, hourDown_one_pos d h 0 s hh]
  dsimp only
  rw [if_neg (by omega)]
  norm_num

theorem minuteDown_one_dborrow (d s : Int) (hd : 0 < d) :
    minuteDown 1 ⟨d, 0, 0, s⟩ = some ⟨d - 1, 23, 59, s⟩ := by
  obtain ⟨k, hk⟩ : ∃ k, (24 * d + 0).toNat = k + 1 := ⟨(24 * d + 0).toNat - 1, by omega⟩
  simp only [minuteDown, minuteFuel, hk, minuteDownGo]
  rw [if_pos ⟨Or.inl hd, by omega⟩, hourDown_one_borrow d 0 s hd]
  dsimp only
  rw [if_neg (by omega)]
  norm_num

theorem total_mk (d h m s : Int) :
    total ⟨d, h, m, s⟩ = 86400 * d + 3600 * h + 60 * m + s := rfl

theorem valid_mk (d h m s : Int) :
    Valid ⟨d, h, m, s⟩ ↔
      0 ≤ d ∧ 0 ≤ h ∧ h ≤ 23 ∧ 0 ≤ m ∧ m ≤ 59 ∧ 0 ≤ s ∧ s ≤ 59 := Iff.rfl

theorem decompose_nonpos (n : Int) (hn : n ≤ 0) : decompose n = reset := by
  rw [decompose, if_pos hn]

theorem decompose_valid (n : Int) : Valid (decompose n) := by
  by_cases hn : n ≤ 0
  · rw [decompose_nonpos n hn]
    exact (valid_mk 0 0 0 0).mpr (by norm_num)
  · rw [decompose, if_neg hn, valid_mk]
    refine ⟨by omega, by omega, by omega, by omega, by omega, by omega, by omega⟩

theorem total_decompose (n : Int) : total (decompose n) = max n 0 := by
  by_cases hn : n ≤ 0
  · rw [decompose_nonpos n hn, reset, total_mk]
    omega
  · rw [decompose, if_neg hn, total_mk]
    omega

theorem decompose_total (v : CValue) (hv : Valid v) : decompose (total v) = v := by
  obtain ⟨d, h, m, s⟩ := v
  rw [valid_mk] at hv
  by_cases hn : total ⟨d, h, m, s⟩ ≤ 0
  · rw [total_mk] at hn
    rw [decompose_nonpos _ (by rw [total_mk]; omega), reset]
    simp only [CValue.mk.injEq]
    refine ⟨by omega, by omega, by omega, by omega⟩
  · rw [total_mk] at hn ⊢
    rw [decompose, if_neg hn]
    simp only [CValue.mk.injEq]
    refine ⟨by omega, by omega, by omega, by omega⟩

theorem secondDownGo_eq (fuel : Nat) : ∀ (num d h m s : Int),
    0 ≤ d → 0 ≤ h → h ≤ 23 → 0 ≤ m → m ≤ 59 → 0 ≤ s →
    (1440 * d + 60 * h + m).toNat < fuel →
    secondDownGo fuel num ⟨d, h, m, s⟩ =
      some (if 0 ≤ s - num then ⟨d, h, m, s - num⟩
            else decompose (total ⟨d, h, m, s⟩ - num)) := by
  induction fuel with
  | zero => intro num d h m s _ _ _ _ _ _ hf; omega
  | succ f ih =>
    intro num d h m s hd hh hh2 hm hm2 hs hf
    rw [secondDownGo]
    dsimp only
    by_cases hc : 0 ≤ s - num
    · rw [if_neg (by omega), if_pos hc]
      simp only [Option.some.injEq, CValue.mk.injEq]
      refine ⟨trivial, trivial, trivial, by split <;> omega⟩
    · by_cases hhi : 0 < d ∨ 0 < h ∨ 0 < m
      · rw [if_pos ⟨hhi, by omega⟩, if_neg hc]
        by_cases hm0 : 0 < m
        · rw [minuteDown_one_pos d h m s hm0]
          dsimp only
          rw [ih num d h (m - 1) (s + 60) hd hh hh2 (by omega) (by omega) (by omega) (by omega)]
          congr 1
          by_cases hc2 : 0 ≤ s + 60 - num
          · rw [if_pos hc2]
            have hvv : Valid ⟨d, h, m - 1, s + 60 - num⟩ := by rw [valid_mk]; omega
            rw [show total ⟨d, h, m, s⟩ - num = total ⟨d, h, m - 1, s + 60 - num⟩ by
              rw [total_mk, total_mk]; omega]
            exact (decompose_total _ hvv).symm
          · rw [if_neg hc2]
            congr 1
            rw [total_mk, total_mk]
            omega
        · have hm0 : m = 0 := by omega
          subst hm0
          by_cases hh0 : 0 < h
          · rw [minuteDown_one_hborrow d h s hd hh0]
            dsimp only
            rw [ih num d (h - 1) 59 (s + 60) hd (by omega) (by omega) (by omega) (by omega)
              (by omega) (by omega)]
            congr 1
            by_cases hc2 : 0 ≤ s + 60 - num
            · rw [if_pos hc2]
              have hvv : Valid ⟨d, h - 1, 59, s + 60 - num⟩ := by rw [valid_mk]; omega
              rw [show total ⟨d, h, 0, s⟩ - num = total ⟨d, h - 1, 59, s + 60 - num⟩ by
                rw [total_mk, total_mk]; omega]
              exact (decompose_total _ hvv).symm
            · rw [if_neg hc2]
              congr 1
              rw [total_mk, total_mk]
              omega
          · have hd0 : 0 < d := by omega
            have hh0e : h = 0 := by omega
            subst hh0e
            rw [minuteDown_one_dborrow d s hd0]
            dsimp only
            rw [ih num (d - 1) 23 59 (s + 60) (by omega) (by omega) (by omega) (by omega)
              (by omega) (by omega) (by omega)]
            congr 1
            by_cases hc2 : 0 ≤ s + 60 - num
            · rw [if_pos hc2]
              have hvv : Valid ⟨d - 1, 23, 59, s + 60 - num⟩ := by rw [valid_mk]; omega
              rw [show total ⟨d, 0, 0, s⟩ - num = total ⟨d - 1, 23, 59, s + 60 - num⟩ by
                rw [total_mk, total_mk]; omega]
              exact (decompose_total _ hvv).symm
            · rw [if_neg hc2]
              congr 1
              rw [total_mk, total_mk]
              omega
      · rw [if_neg (fun hcon => hhi hcon.1), if_neg hc]
        rw [decompose_nonpos _ (by rw [total_mk]; omega), reset]
        simp only [Option.some.injEq, CValue.mk.injEq]
        refine ⟨by omega, by omega, by omega, by split <;> omega⟩

theorem secondDown_eq (v : CValue) (num : Int) (hv : Valid v) (hnum : 0 ≤ num) :
    secondDown num v = some (decompose (total v - num)) := by
  obtain ⟨d, h, m, s⟩ := v
  rw [valid_mk] at hv
  rw [secondDown, show secondFuel ⟨d, h, m, s⟩ = (1440 * d + 60 * h + m).toNat + 1 from rfl]
  rw [secondDownGo_eq _ num d h m s (by omega) (by omega) (by omega) (by omega) (by omega)
    (by omega) (by omega)]
  by_cases hc : 0 ≤ s - num
  · rw [if_pos hc]
    congr 1
    have hvv : Valid ⟨d, h, m, s - num⟩ := by rw [valid_mk]; omega
    rw [show total ⟨d, h, m, s⟩ - num = total ⟨d, h, m, s - num⟩ by
      rw [total_mk, total_mk]; omega]
    exact (decompose_total _ hvv).symm
  · rw [if_neg hc]

theorem iterSecond_eq (n : Nat) : ∀ v : CValue, Valid v →
    iterSecond n v = some (decompose (total v - n)) := by
  induction n with
  | zero =>
    intro v hv
    rw [iterSecond, show total v - (0 : Nat) = total v by omega, decompose_total v hv]
  | succ k ih =>
    intro v hv
    have ht : 0 ≤ total v := by
      obtain ⟨d, h, m, s⟩ := v
      rw [valid_mk] at hv
      rw [total_mk]
      omega
    rw [iterSecond, secondDown_eq v 1 hv (by omega), Option.some_bind]
    rw [ih (decompose (total v - 1)) (decompose_valid _), total_decompose]
    by_cases h1 : 1 ≤ total v
    · have harg : max (total v - 1) 0 - (k : Int) = total v - ((k : Nat) + 1 : Nat) := by omega
      rw [harg]
    · rw [decompose_nonpos (max (total v - 1) 0 - (k : Int)) (by omega),
        decompose_nonpos (total v - ((k : Nat) + 1 : Nat)) (by omega)]

theorem hourDownGo_isSome (fuel : Nat) : ∀ (num d h m s : Int),
    0 ≤ d → d.toNat < fuel → (hourDownGo fuel num ⟨d, h, m, s⟩).isSome := by
  induction fuel with
  | zero => intro num d h m s _ hf; omega
  | succ f ih =>
    intro num d h m s hd hf
    rw [hourDownGo]
    dsimp only
    by_cases hcon : 0 < d ∧ h - num < 0
    · rw [if_pos hcon, dayDown_one d h m s hcon.1]
      exact ih num (d - 1) (h + 24) m s (by omega) (by omega)
    · rw [if_neg hcon]
      rfl

theorem minuteDownGo_isSome (fuel : Nat) : ∀ (num d h m s : Int),
    0 ≤ d → 0 ≤ h → (24 * d + h).toNat < fuel →
    (minuteDownGo fuel num ⟨d, h, m, s⟩).isSome := by
  induction fuel with
  | zero => intro num d h m s _ _ hf; omega
  | succ f ih =>
    intro num d h m s hd hh hf
    rw [minuteDownGo]
    dsimp only
    by_cases hcon : (0 < d ∨ 0 < h) ∧ m - num < 0
    · rw [if_pos hcon]
      by_cases hh0 : 0 < h
      · rw [hourDown_one_pos d h m s hh0]
        exact ih num d (h - 1) (m + 60) s hd (by omega) (by omega)
      · have hd0 : 0 < d := by rcases hcon.1 with h1 | h1 <;> omega
        have he : h = 0 := by omega
        subst he
        rw [hourDown_one_borrow d m s hd0]
        exact ih num (d - 1) 23 (m + 60) s (by omega) (by omega) (by omega)
    · rw [if_neg hcon]
      rfl

theorem secondDownGo_isSome (fuel : Nat) : ∀ (num d h m s : Int),
    0 ≤ d → 0 ≤ h → 0 ≤ m → (1440 * d + 60 * h + m).toNat < fuel →
    (secondDownGo fuel num ⟨d, h, m, s⟩).isSome := by
  induction fuel with
  | zero => intro num d h m s _ _ _ hf; omega
  | succ f ih =>
    intro num d h m s hd hh hm hf
    rw [secondDownGo]
    dsimp only
    by_cases hcon : (0 < d ∨ 0 < h ∨ 0 < m) ∧ s - num < 0
    · rw [if_pos hcon]
      by_cases hm0 : 0 < m
      · rw [minuteDown_one_pos d h m s hm0]
        exact ih num d h (m - 1) (s + 60) hd hh (by omega) (by omega)
      · have hme : m = 0 := by omega
        subst hme
        by_cases hh0 : 0 < h
        · rw [minuteDown_one_hborrow d h s hd hh0]
          exact ih num d (h - 1) 59 (s + 60) hd (by omega) (by omega) (by omega)
        · have hd0 : 0 < d := by
            rcases hcon.1 with h1 | h1 | h1 <;> omega
          have he : h = 0 := by omega
          subst he
          rw [minuteDown_one_dborrow d s hd0]
          exact ih num (d - 1) 23 59 (s + 60) (by omega) (by omega) (by omega) (by omega)
    · rw [if_neg hcon]
      rfl

theorem computeCounter_eq_spec (target reference : Int) :
    computeCounter target reference = specConstruct target reference := by
  unfold computeCounter specConstruct
  simp only [CValue.mk.injEq]
  refine ⟨trivial, by omega, by omega, by omega⟩

theorem specConstruct_days (target reference : Int) :
    (specConstruct target reference).days = roundedDiffSeconds target reference / 86400 := rfl

theorem specConstruct_hours (target reference : Int) :
    (specConstruct target reference).hours =
      roundedDiffSeconds target reference % 86400 / 3600 := rfl

theorem specConstruct_minutes (target reference : Int) :
    (specConstruct target reference).minutes =
      roundedDiffSeconds target reference % 86400 % 3600 / 60 := rfl

theorem specConstruct_seconds (target reference : Int) :
    (specConstruct target reference).seconds =
      roundedDiffSeconds target reference % 86400 % 3600 % 60 := rfl

/-- C1: starting from any duration whose four fields are non-negative and in
their normal ranges and whose total remaining seconds is `total v`, repeated
`secondDown(1)` reaches the all-zero state after exactly `total v` calls, is
not all-zero after any smaller number of calls, and remains all-zero under
every further `secondDown(1)` call. -/
theorem claim_C1 (v : CValue) (hv : Valid v) :
    iterSecond (total v).toNat v = some reset ∧
    (∀ k : Nat, k < (total v).toNat → ∃ w, iterSecond k v = some w ∧ w ≠ reset) ∧
    (∀ j : Nat, iterSecond ((total v).toNat + j) v = some reset) := by
  have ht : 0 ≤ total v := by
    obtain ⟨d, h, m, s⟩ := v
    rw [valid_mk] at hv
    rw [total_mk]
    omega
  refine ⟨?_, ?_, ?_⟩
  · rw [iterSecond_eq _ v hv, decompose_nonpos _ (by omega)]
  · intro k hk
    refine ⟨decompose (total v - k), iterSecond_eq _ v hv, fun heq => ?_⟩
    have h2 := total_decompose (total v - k)
    rw [heq, reset, total_mk] at h2
    omega
  · intro j
    rw [iterSecond_eq _ v hv, decompose_nonpos _ (by omega)]

theorem claim_C1_witness :
    Valid ⟨0, 0, 1, 5⟩ ∧
    (iterSecond (total ⟨0, 0, 1, 5⟩).toNat ⟨0, 0, 1, 5⟩ = some reset ∧
      (∀ k : Nat, k < (total ⟨0, 0, 1, 5⟩).toNat →
        ∃ w, iterSecond k ⟨0, 0, 1, 5⟩ = some w ∧ w ≠ reset) ∧
      (∀ j : Nat, iterSecond ((total ⟨0, 0, 1, 5⟩).toNat + j) ⟨0, 0, 1, 5⟩ = some reset)) :=
  ⟨by decide, claim_C1 ⟨0, 0, 1, 5⟩ (by decide)⟩

/-- C2: from any valid duration, `secondDown(n)` with `n ≥ 0` leaves every
field non-negative; the all-zero state is absorbing; and any single decrement
whose amount exceeds the total remaining seconds yields exactly the all-zero
state. -/
theorem claim_C2 (v : CValue) (n : Int) (hv : Valid v) (hn : 0 ≤ n) :
    ∃ w, secondDown n v = some w ∧
      0 ≤ w.days ∧ 0 ≤ w.hours ∧ 0 ≤ w.minutes ∧ 0 ≤ w.seconds ∧
      (v = reset → w = reset) ∧ (total v < n → w = reset) := by
  have hw := decompose_valid (total v - n)
  unfold Valid at hw
  refine ⟨decompose (total v - n), secondDown_eq v n hv hn,
    hw.1, hw.2.1, hw.2.2.2.1, hw.2.2.2.2.2.1, fun hveq => ?_, fun hlt => ?_⟩
  · subst hveq
    rw [show total reset = 0 by decide]
    exact decompose_nonpos _ (by omega)
  · exact decompose_nonpos _ (by omega)

theorem claim_C2_witness :
    Valid ⟨0, 0, 0, 1⟩ ∧ (0 : Int) ≤ 2 ∧
    (∃ w, secondDown 2 ⟨0, 0, 0, 1⟩ = some w ∧
      0 ≤ w.days ∧ 0 ≤ w.hours ∧ 0 ≤ w.minutes ∧ 0 ≤ w.seconds ∧
      (⟨0, 0, 0, 1⟩ = reset → w = reset) ∧ (total ⟨0, 0, 0, 1⟩ < 2 → w = reset)) :=
  ⟨by decide, by decide, claim_C2 ⟨0, 0, 0, 1⟩ 2 (by decide) (by decide)⟩

/-- C3: for any valid duration and `N` not exceeding its total remaining
seconds, `N` successive `secondDown(1)` calls produce exactly the same four
field values as one `secondDown(N)` call. -/
theorem claim_C3 (v : CValue) (N : Nat) (hv : Valid v) (hN : (N : Int) ≤ total v) :
    iterSecond N v = secondDown N v := by
  rw [iterSecond_eq N v hv, secondDown_eq v N hv (by omega)]

theorem claim_C3_witness :
    Valid ⟨0, 0, 2, 30⟩ ∧ ((100 : Nat) : Int) ≤ total ⟨0, 0, 2, 30⟩ ∧
    iterSecond 100 ⟨0, 0, 2, 30⟩ = secondDown 100 ⟨0, 0, 2, 30⟩ :=
  ⟨by decide, by decide, claim_C3 ⟨0, 0, 2, 30⟩ 100 (by decide) (by decide)⟩

/-- C4 counterexample: the claim asserts all four fields are non-negative
after construction from ANY two parseable instants, but constructing with a
reference instant 1000 ms after the expiration instant (rounded difference
-1 s) yields `days = -1`. -/
theorem claim_C4_counterexample : ¬ 0 ≤ (computeCounter 0 1000).days := by decide

/-- C4 as amended: after construction from two parseable instants whose
rounded difference is non-negative, and after `secondDown(n)` with `n ≥ 0`
from any valid duration, all four fields are non-negative with
`hours ∈ [0,23]`, `minutes ∈ [0,59]`, `seconds ∈ [0,59]` and `days` only
bounded below by 0. -/
theorem claim_C4_amended :
    (∀ toMs fromMs : Int, 0 ≤ roundedDiffSeconds toMs fromMs →
      0 ≤ (computeCounter toMs fromMs).days ∧
      0 ≤ (computeCounter toMs fromMs).hours ∧ (computeCounter toMs fromMs).hours ≤ 23 ∧
      0 ≤ (computeCounter toMs fromMs).minutes ∧ (computeCounter toMs fromMs).minutes ≤ 59 ∧
      0 ≤ (computeCounter toMs fromMs).seconds ∧ (computeCounter toMs fromMs).seconds ≤ 59) ∧
    (∀ (v : CValue) (n : Int), Valid v → 0 ≤ n → ∃ w, secondDown n v = some w ∧ Valid w) := by
  constructor
  · intro a b hr
    rw [computeCounter_eq_spec, specConstruct_days, specConstruct_hours, specConstruct_minutes,
      specConstruct_seconds]
    refine ⟨by omega, by omega, by omega, by omega, by omega, by omega, by omega⟩
  · intro v n hv hn
    exact ⟨decompose (total v - n), secondDown_eq v n hv hn, decompose_valid _⟩

theorem claim_C4_witness :
    ((0 : Int) ≤ roundedDiffSeconds 90061000 0 ∧
      0 ≤ (computeCounter 90061000 0).days ∧
      0 ≤ (computeCounter 90061000 0).hours ∧ (computeCounter 90061000 0).hours ≤ 23 ∧
      0 ≤ (computeCounter 90061000 0).minutes ∧ (computeCounter 90061000 0).minutes ≤ 59 ∧
      0 ≤ (computeCounter 90061000 0).seconds ∧ (computeCounter 90061000 0).seconds ≤ 59) ∧
    (Valid ⟨0, 1, 0, 0⟩ ∧ (0 : Int) ≤ 5 ∧
      ∃ w, secondDown 5 ⟨0, 1, 0, 0⟩ = some w ∧ Valid w) :=
  ⟨⟨by decide, claim_C4_amended.1 90061000 0 (by decide)⟩,
    ⟨by decide, by decide, claim_C4_amended.2 ⟨0, 1, 0, 0⟩ 5 (by decide) (by decide)⟩⟩

/-- C5: construction computes `totalSeconds` by rounding the millisecond
difference to the nearest whole second (the computed value is within half a
second of the exact quotient, not a truncation) and decomposes it by the
floor-division chain of the spec; instants exactly 90061 s apart give
`{days: 1, hours: 1, minutes: 1, seconds: 1}`. -/
theorem claim_C5 :
    (∀ target reference : Int, computeCounter target reference = specConstruct target reference) ∧
    (∀ target reference : Int,
      2 * ((target - reference) - 1000 * roundedDiffSeconds target reference) ≤ 1000 ∧
      2 * (1000 * roundedDiffSeconds target reference - (target - reference)) ≤ 1000) ∧
    (∀ reference : Int, computeCounter (reference + 90061000) reference = ⟨1, 1, 1, 1⟩) := by
  refine ⟨computeCounter_eq_spec, ?_, ?_⟩
  · intro a b
    unfold roundedDiffSeconds
    constructor <;> omega
  · intro r
    rw [computeCounter_eq_spec]
    unfold specConstruct roundedDiffSeconds
    simp only [CValue.mk.injEq]
    refine ⟨by omega, by omega, by omega, by omega⟩

/-- C6 counterexample: the claim says construction from an unparseable
expiration instant fails; but the source constructor contains no parse check
and no `throw` at all — with `new Date(bad).valueOf() = NaN` (modelled as
`none`) it still returns a counter object, all four fields `NaN`. -/
theorem claim_C6_counterexample :
    computeCounterJs none (some 0) = ⟨none, none, none, none⟩ := rfl

/-- C6 as amended: construction from an unparseable expiration instant does
not fail and is not surfaced to the caller; it produces a counter object all
four of whose fields are NaN. -/
theorem claim_C6_amended :
    ∀ fromMs : JsNum, computeCounterJs none fromMs = ⟨none, none, none, none⟩ := by
  intro f
  cases f <;> rfl

/-- C7: the expiration predicate returns a boolean that is true exactly when
all four fields are simultaneously zero (predicate modelled from the spec;
only its caller is in the delivered sources). -/
theorem claim_C7 (v : CValue) :
    isExpired v = true ↔ v.days = 0 ∧ v.hours = 0 ∧ v.minutes = 0 ∧ v.seconds = 0 := by
  obtain ⟨d, h, m, s⟩ := v
  simp [isExpired, and_assoc]

/-- C8: `secondDown(1)` borrows across unit boundaries: one minute becomes
59 seconds, and one day cascades to 23 h 59 m 59 s. -/
theorem claim_C8 :
    secondDown 1 ⟨0, 0, 1, 0⟩ = some ⟨0, 0, 0, 59⟩ ∧
    secondDown 1 ⟨1, 0, 0, 0⟩ = some ⟨0, 23, 59, 59⟩ := by
  constructor
  · decide
  · decide

/-- C9: when the reference instant is after the expiration instant (rounded
difference negative), construction neither clamps nor fails: the same
floor-based decomposition yields a negative `days` field with the other
three fields in their normal ranges; a rounded difference of -1 s gives
`{days: -1, hours: 23, minutes: 59, seconds: 59}`. -/
theorem claim_C9 (toMs fromMs : Int) (hneg : roundedDiffSeconds toMs fromMs < 0) :
    (computeCounter toMs fromMs).days < 0 ∧
    0 ≤ (computeCounter toMs fromMs).hours ∧ (computeCounter toMs fromMs).hours ≤ 23 ∧
    0 ≤ (computeCounter toMs fromMs).minutes ∧ (computeCounter toMs fromMs).minutes ≤ 59 ∧
    0 ≤ (computeCounter toMs fromMs).seconds ∧ (computeCounter toMs fromMs).seconds ≤ 59 ∧
    computeCounter 0 1000 = ⟨-1, 23, 59, 59⟩ := by
  rw [computeCounter_eq_spec, specConstruct_days, specConstruct_hours, specConstruct_minutes,
    specConstruct_seconds]
  refine ⟨by omega, by omega, by omega, by omega, by omega, by omega, by omega, by decide⟩

theorem claim_C9_witness :
    roundedDiffSeconds 0 1000 < 0 ∧
    ((computeCounter 0 1000).days < 0 ∧
      0 ≤ (computeCounter 0 1000).hours ∧ (computeCounter 0 1000).hours ≤ 23 ∧
      0 ≤ (computeCounter 0 1000).minutes ∧ (computeCounter 0 1000).minutes ≤ 59 ∧
      0 ≤ (computeCounter 0 1000).seconds ∧ (computeCounter 0 1000).seconds ≤ 59 ∧
      computeCounter 0 1000 = ⟨-1, 23, 59, 59⟩) :=
  ⟨by decide, claim_C9 0 1000 (by decide)⟩

/-- C10: on every state with non-negative fields and every `num ≥ 0`, the
borrow loops of `secondDown`, `minuteDown` and `hourDown` finish within the
fuel bound given by the higher-order units remaining (each borrow iteration
strictly decreases that total), so none of the nested loops can run forever;
`dayDown` contains no loop and is total by construction. -/
theorem claim_C10 (v : CValue) (num : Int)
    (hd : 0 ≤ v.days) (hh : 0 ≤ v.hours) (hm : 0 ≤ v.minutes) (hs : 0 ≤ v.seconds)
    (hnum : 0 ≤ num) :
    (secondDown num v).isSome ∧ (minuteDown num v).isSome ∧ (hourDown num v).isSome := by
  obtain ⟨d, h, m, s⟩ := v
  refine ⟨?_, ?_, ?_⟩
  · rw [secondDown, show secondFuel ⟨d, h, m, s⟩ = (1440 * d + 60 * h + m).toNat + 1 from rfl]
    exact secondDownGo_isSome _ num d h m s hd hh hm (by omega)
  · rw [minuteDown, show minuteFuel ⟨d, h, m, s⟩ = (24 * d + h).toNat + 1 from rfl]
    exact minuteDownGo_isSome _ num d h m s hd hh (by omega)
  · rw [hourDown, show hourFuel ⟨d, h, m, s⟩ = d.toNat + 1 from rfl]
    exact hourDownGo_isSome _ num d h m s hd (by omega)

theorem claim_C10_witness :
    (0 : Int) ≤ (⟨2, 30, 100, 5⟩ : CValue).days ∧
    (0 : Int) ≤ (⟨2, 30, 100, 5⟩ : CValue).hours ∧
    (0 : Int) ≤ (⟨2, 30, 100, 5⟩ : CValue).minutes ∧
    (0 : Int) ≤ (⟨2, 30, 100, 5⟩ : CValue).seconds ∧
    (0 : Int) ≤ (7 : Int) ∧
    ((secondDown 7 ⟨2, 30, 100, 5⟩).isSome ∧ (minuteDown 7 ⟨2, 30, 100, 5⟩).isSome ∧
      (hourDown 7 ⟨2, 30, 100, 5⟩).isSome) :=
  ⟨by decide, by decide, by decide, by decide, by decide,
    claim_C10 ⟨2, 30, 100, 5⟩ 7 (by decide) (by decide) (by decide) (by decide) (by decide)⟩

end DateTimeCounter
